import Mathlib

/-!
Verification of the vue-tsgo codegen core: the per-file compiler-option
directive parser, the exposure decision of the script merger, the attribute
value offset helper, and models of the expression classifier, the
template-ref codegen and the import scanner.
-/

namespace VueTsgo

/-! ## String helpers

Executable substring tests over the character lists of strings, used to
state the containment assertions of the regression tests. -/

/-- Does `cs` start with `pat`? -/
def charsHasPre : List Char → List Char → Bool
  | [], _ => true
  | _ :: _, [] => false
  | p :: ps, c :: rest => p == c && charsHasPre ps rest

/-- Does `cs` contain `pat` as a contiguous substring? -/
def charsHasSub : List Char → List Char → Bool
  | pat, [] => charsHasPre pat []
  | pat, c :: rest => charsHasPre pat (c :: rest) || charsHasSub pat rest

/-- Does string `s` contain `pat` as a substring? -/
def strContains (s pat : String) : Bool :=
  charsHasSub pat.data s.data

/-! ## `src/parse/utils.ts` : getAttributeValueOffset -/

/-- The fields of a `CompilerDOM.TextNode` read by `getAttributeValueOffset`:
`node.loc.start.offset` and `node.loc.source`. -/
structure TextNode where
  startOffset : Nat
  source : String

/-- Does the string start with a double or single quote? The source's
`startsWith` test of `getAttributeValueOffset`. -/
def startsWithQuote (s : String) : Bool :=
  charsHasPre "\"".data s.data || charsHasPre "'".data s.data

/-- Embeds `getAttributeValueOffset` from `src/parse/utils.ts`: start offset,
incremented once when the source text starts with a double or single quote. -/
def getAttributeValueOffset (node : TextNode) : Nat :=
  if startsWithQuote node.source then
    node.startOffset + 1
  else
    node.startOffset

/-! ## `src/compilerOptions.ts` : parseLocalCompilerOptions

The directive regex is `^\s*@(?<key>\w+)\b(?<value>.+)/m`: anchored at a line
start, optional whitespace, `@`, a nonempty run of word characters as the key,
a word boundary, then a nonempty remainder of the line as the value.
`JSON.parse` is a host-language builtin, so it is a parameter `jp` here. -/

/-- JavaScript `\w`: letters, digits and underscore. -/
def isWordChar (c : Char) : Bool :=
  c.isAlpha || c.isDigit || c == '_'

/-- JavaScript `\s` on the characters that can occur inside one line. -/
def isSpaceChar (c : Char) : Bool :=
  c == ' ' || c == '\t' || c == '\r' || c == '\x0b' || c == '\x0c'

/-- Match one line against `^\s*@(\w+)\b(.+)`: leading whitespace, `@`,
a maximal nonempty run of word characters (the key), then a nonempty
remainder whose first character is a non-word character (the value). -/
def matchLine (cs : List Char) : Option (String × String) :=
  match cs.dropWhile isSpaceChar with
  | '@' :: r =>
    let key := r.takeWhile isWordChar
    let val := r.dropWhile isWordChar
    if key.isEmpty || val.isEmpty then none
    else some (String.mk key, String.mk val)
  | _ => none

/-- Split a character list at every newline, as `text.split("\n")` does:
one (possibly empty) segment per line. -/
def splitLines : List Char → List (List Char)
  | [] => [[]]
  | '\n' :: rest => [] :: splitLines rest
  | c :: rest =>
    match splitLines rest with
    | [] => [[c]]
    | l :: ls => (c :: l) :: ls

/-- First line of `text` matching the directive pattern, as `exec` with the
`m` flag finds the earliest match in the string. -/
def firstDirective (text : String) : Option (String × String) :=
  (splitLines text.data).findSome? matchLine

/-- The entry one comment contributes: the directive match, with its value
put through the JSON parser `jp`; `none` when either step fails (the
`try`/`catch` plus `filter` in the source). -/
def entryOf {J : Type} (jp : String → Option J) (text : String) : Option (String × J) :=
  match firstDirective text with
  | some (k, v) => (jp v).map (fun j => (k, j))
  | none => none

/-- Embeds `parseLocalCompilerOptions`: map every comment through the
directive matcher and JSON parser, drop the failures, and return the entry
list when it is nonempty, `undefined` (here `none`) otherwise. The entry
list stands for the argument of `Object.fromEntries`. -/
def parseLocalCompilerOptions {J : Type} (jp : String → Option J)
    (comments : List String) : Option (List (String × J)) :=
  let entries := comments.filterMap (entryOf jp)
  if entries.isEmpty then none else some entries

/-- Key lookup in the object `Object.fromEntries(entries)` builds: for a
duplicated key the last entry wins. -/
def objGet {J : Type} (entries : List (String × J)) (k : String) : Option J :=
  (entries.reverse.find? (fun p => p.1 == k)).map (fun p => p.2)

/-- A miniature JSON value universe, enough to talk about scalar versus
array directive values. -/
inductive JVal where
  | jnum (n : Int)
  | jstr (s : String)
  | jbool (b : Bool)
  | jarr (xs : List String)
deriving DecidableEq, Repr

/-- A JSON parser evaluated only at the concrete directive values of the
examples, agreeing with `JSON.parse` there (leading space tolerated). -/
def jpTest (s : String) : Option JVal :=
  if s = " [\"./a\"]" then some (JVal.jarr ["./a"])
  else if s = " [\"./b\"]" then some (JVal.jarr ["./b"])
  else if s = " 3" then some (JVal.jnum 3)
  else none

/-! ## `@vue/shared` : camelize and capitalize

The exposure decision matches component tag names through
`camelize` (replace `-(\w)` by the upper-cased word character) and
`capitalize` (upper-case the first character). -/

/-- Global replacement of `-(\w)` by the upper-cased captured character,
left to right, non-overlapping, as `camelize` of `@vue/shared` does. -/
def camelizeChars : List Char → List Char
  | [] => []
  | '-' :: c :: rest =>
    if isWordChar c then c.toUpper :: camelizeChars rest
    else '-' :: camelizeChars (c :: rest)
  | c :: rest => c :: camelizeChars rest

/-- `camelize` over strings. -/
def camelizeStr (s : String) : String :=
  String.mk (camelizeChars s.data)

/-- `capitalize` of `@vue/shared`: upper-case the first character. -/
def capitalizeStr (s : String) : String :=
  match s.data with
  | [] => ""
  | c :: rest => String.mk (c.toUpper :: rest)

/-! ## `generate` (core/codegen) : the setupExposed region -/

/-- The two spellings `new Set([camelize(c), capitalize(camelize(c))])`
tries for one component tag. -/
def tagSpellings (c : String) : List String :=
  if camelizeStr c == capitalizeStr (camelizeStr c) then [camelizeStr c]
  else [camelizeStr c, capitalizeStr (camelizeStr c)]

/-- Embeds the `setupExposed` region of `generate`: every template-accessed
or dollar variable that is a declared binding, plus every camelized or
capitalized-camelized component tag name that is a declared binding. -/
def setupExposed (declaredVariables accessedVars dollarVars components : List String) :
    List String :=
  (accessedVars ++ dollarVars).filter (fun n => declaredVariables.contains n)
    ++ (components.flatMap (fun c =>
        (tagSpellings c).filter (fun n => declaredVariables.contains n)))

/-- The exposure condition as the claim words it: membership in the
intersection of the three sets, with component tags matched
case-insensitively. Stated for comparison with `setupExposed`. -/
def claimedExposedCond (accessedVars dollarVars components : List String)
    (n : String) : Bool :=
  accessedVars.contains n && dollarVars.contains n
    && components.any (fun c => c.toLower == n.toLower)

/-! ## Expression Classifier

Modelled from the spec: the classifier implementation (core/codegen
template expression walk) is not among the provided sources, only its
regression tests are. The model below follows the spec's structural walk
with a single type-context flag, with one departure fixed by the repo's own
`ts type query` test: the operand of `typeof` is walked in expression
context (the test expects `as typeof __VLS_ctx.bar`), not in type context. -/

/-- The per-identifier classification tag. -/
inductive Tag where
  | value
  | typeName
deriving DecidableEq, Repr

/-- One classifier output entry: the identifier, its tag, whether it sits at
the root of its access chain, and whether the emitted text carries the
context-access rewrite for it. -/
structure TagEntry where
  name : String
  tag : Tag
  root : Bool
  pref : Bool
deriving DecidableEq, Repr

/-- The context-access rewrite prepended to an in-scope value identifier. -/
def ctxDot : String := "__VLS_ctx."

mutual

/-- Modelled from the spec: the expression/type subtree shapes the
classifier walks, covering the constructs the regression tests exercise. -/
inductive Node where
  | ident (name : String)
  | strLit (s : String)
  | member (obj : Node) (prop : String)
  | index (obj : Node) (idx : Node)
  | paren (e : Node)
  | asCast (e : Node) (t : Node)
  | objLit (props : NodeList)
  | pair (key : String) (v : Node)
  | shorthand (name : String)
  | tyRef (name : String) (targs : NodeList)
  | typeQuery (e : Node)
  | keyof (t : Node)
  | tyLit (members : NodeList) (trailingSemi : Bool)
  | propSig (key : String) (t : Node)
  | methodSig (key : String) (params : NodeList) (ret : Node)
  | param (name : String) (t : Node)
  | computedKey (e : Node) (t : Node)

/-- A list of nodes (type arguments, object properties, members, params). -/
inductive NodeList where
  | nil
  | cons (hd : Node) (tl : NodeList)

end

mutual

/-- Modelled from the spec: the classifier's structural walk. `tc` is the
type-context flag; it is set on entry into a type-argument list, a keyof
operand, an as-cast target type, a type-literal member list, method
signature names and parameters and property-signature keys; it is cleared
on entry into a computed key and into the operand of `typeof` (the latter
per the repo's `ts type query` test). The result is the emitted text and
the classification entries in emission order. -/
def walk (scope : List String) (tc : Bool) : Node → String × List TagEntry
  | .ident n =>
    if tc then (n, [⟨n, Tag.typeName, true, false⟩])
    else if scope.contains n then (ctxDot ++ n, [⟨n, Tag.value, true, true⟩])
    else (n, [⟨n, Tag.value, true, false⟩])
  | .strLit s => ("'" ++ s ++ "'", [])
  | .member o p =>
    ((walk scope tc o).1 ++ "." ++ p,
      (walk scope tc o).2 ++ [⟨p, if tc then Tag.typeName else Tag.value, false, false⟩])
  | .index o i =>
    ((walk scope tc o).1 ++ "[" ++ (walk scope tc i).1 ++ "]",
      (walk scope tc o).2 ++ (walk scope tc i).2)
  | .paren e => ("(" ++ (walk scope tc e).1 ++ ")", (walk scope tc e).2)
  | .asCast e t =>
    ((walk scope tc e).1 ++ " as " ++ (walk scope true t).1,
      (walk scope tc e).2 ++ (walk scope true t).2)
  | .objLit ps =>
    ("\x7b " ++ (walkList scope tc ", " ps).1 ++ " \x7d", (walkList scope tc ", " ps).2)
  | .pair k v =>
    (k ++ ": " ++ (walk scope tc v).1,
      ⟨k, if tc then Tag.typeName else Tag.value, false, false⟩ :: (walk scope tc v).2)
  | .shorthand n =>
    if tc then (n ++ ": " ++ n, [⟨n, Tag.typeName, true, false⟩])
    else if scope.contains n then
      (n ++ ": " ++ ctxDot ++ n, [⟨n, Tag.value, true, true⟩])
    else (n ++ ": " ++ n, [⟨n, Tag.value, true, false⟩])
  | .tyRef n targs =>
    match targs with
    | .nil => (n, [⟨n, Tag.typeName, true, false⟩])
    | .cons a tl =>
      (n ++ "<" ++ (walkList scope true ", " (.cons a tl)).1 ++ ">",
        ⟨n, Tag.typeName, true, false⟩ :: (walkList scope true ", " (.cons a tl)).2)
  | .typeQuery e => ("typeof " ++ (walk scope false e).1, (walk scope false e).2)
  | .keyof t => ("keyof " ++ (walk scope true t).1, (walk scope true t).2)
  | .tyLit ms semi =>
    ("\x7b " ++ (walkList scope true "; " ms).1 ++ (if semi then "; \x7d" else " \x7d"),
      (walkList scope true "; " ms).2)
  | .propSig k t =>
    (k ++ ": " ++ (walk scope true t).1,
      ⟨k, Tag.typeName, true, false⟩ :: (walk scope true t).2)
  | .methodSig k ps r =>
    (k ++ "(" ++ (walkList scope true ", " ps).1 ++ "): " ++ (walk scope true r).1,
      ⟨k, Tag.typeName, true, false⟩ :: ((walkList scope true ", " ps).2 ++ (walk scope true r).2))
  | .param n t =>
    (n ++ ": " ++ (walk scope true t).1,
      ⟨n, Tag.typeName, true, false⟩ :: (walk scope true t).2)
  | .computedKey e t =>
    ("[" ++ (walk scope false e).1 ++ "]: " ++ (walk scope true t).1,
      (walk scope false e).2 ++ (walk scope true t).2)

/-- Walk a node list, joining the emitted texts with `sep` and
concatenating the classification entries. -/
def walkList (scope : List String) (tc : Bool) (sep : String) : NodeList → String × List TagEntry
  | .nil => ("", [])
  | .cons hd .nil => walk scope tc hd
  | .cons hd (.cons h2 tl) =>
    ((walk scope tc hd).1 ++ sep ++ (walkList scope tc sep (.cons h2 tl)).1,
      (walk scope tc hd).2 ++ (walkList scope tc sep (.cons h2 tl)).2)

end

/-- Emitted text of a template expression, walked in value context. -/
def emitN (scope : List String) (e : Node) : String :=
  (walk scope false e).1

/-- Classification entries of a template expression, walked in value
context. -/
def tagsN (scope : List String) (e : Node) : List TagEntry :=
  (walk scope false e).2

/-! ## Template-ref creation codegen

Modelled from the spec: the `useTemplateRef` codegen of core/codegen is not
among the provided sources, only its regression tests are. -/

/-- The facts the codegen records about one recognized ref-creating macro
call: its source text, whether an explicit type argument was supplied, and
the ref's string name. -/
structure RefMacroCall where
  callText : String
  hasTypeArg : Bool
  refName : String

/-- Modelled from the spec: a ref-creating macro call with an explicit
type argument is emitted verbatim; without one, the call is wrapped in a
narrowing cast against the generated lookup type keyed by the ref name. -/
def emitRefCreation (c : RefMacroCall) : String :=
  if c.hasTypeArg then c.callText
  else
    c.callText ++ " as Readonly<ShallowRef<__VLS_TemplateRefs['"
      ++ c.refName ++ "'] | null>>"

/-! ## Import/Export Scanner

Modelled from the spec: the scanner over raw script text is not among the
provided sources, only its regression tests are. It recognizes plain
imports, named/default re-exports, star re-exports and namespace star
re-exports, returning every referenced module specifier. -/

/-- The first quoted literal in a line: the text between the first single
or double quote and the next quote of the same kind. -/
def firstQuoted : List Char → Option String
  | [] => none
  | c :: rest =>
    if c == '\'' || c == '"' then some (String.mk (rest.takeWhile (fun d => d != c)))
    else firstQuoted rest

/-- Modelled from the spec: the module specifier one statement line
references — for a line starting (after whitespace) with `import` or
`export`, the first quoted literal on it, if any. Re-export forms without
a `from` clause carry no quote and yield none. -/
def extractModuleSpec (line : String) : Option String :=
  let t := line.data.dropWhile isSpaceChar
  if charsHasPre "import".data t || charsHasPre "export".data t then firstQuoted t
  else none

/-- Modelled from the spec: the Scanner's returned module specifiers for a
raw script text, statement line by statement line. -/
def scanImports (text : String) : List String :=
  (splitLines text.data).filterMap (fun cs => extractModuleSpec (String.mk cs))

/-! ## Concrete expression trees of the regression tests -/

/-- The expression `(item as Extract<typeof item, \x7b slot: string; \x7d>)`. -/
def astExtract : Node :=
  .paren (.asCast (.ident "item")
    (.tyRef "Extract" (.cons (.typeQuery (.ident "item"))
      (.cons (.tyLit (.cons (.propSig "slot" (.tyRef "string" .nil)) .nil) true) .nil))))

/-- The expression `(x as \x7b bar(arg: string): void \x7d)`. -/
def astMethodLit : Node :=
  .paren (.asCast (.ident "x")
    (.tyLit (.cons (.methodSig "bar" (.cons (.param "arg" (.tyRef "string" .nil)) .nil)
      (.tyRef "void" .nil)) .nil) false))

/-- The expression `foo.bar[baz]`. -/
def astMemberIndex : Node :=
  .index (.member (.ident "foo") "bar") (.ident "baz")

/-- The expression `\x7b foo: bar, baz \x7d`. -/
def astObjShorthand : Node :=
  .objLit (.cons (.pair "foo" (.ident "bar")) (.cons (.shorthand "baz") .nil))

/-- The expression `foo as typeof bar`. -/
def astTypeQueryCast : Node :=
  .asCast (.ident "foo") (.typeQuery (.ident "bar"))

/-! ## The classifier invariant -/

/-- The invariant every classification entry satisfies: a `TypeName` entry
is never prefixed, a non-root entry is never prefixed, and a root `Value`
entry whose name is in the BindingSet is prefixed. -/
def TagInv (scope : List String) (en : TagEntry) : Prop :=
  (en.tag = Tag.typeName → en.pref = false)
  ∧ (en.root = false → en.pref = false)
  ∧ (en.tag = Tag.value → en.root = true → scope.contains en.name = true → en.pref = true)

mutual

/-- Every entry produced by the classifier walk satisfies the invariant. -/
theorem walk_inv (scope : List String) (tc : Bool) (e : Node) :
    ∀ en ∈ (walk scope tc e).2, TagInv scope en := by
  cases e with
  | ident n =>
    intro en hen
    cases htc : tc <;> cases hsc : scope.contains n <;>
      simp only [htc, walk, hsc, Bool.false_eq_true, if_false, if_true,
        List.mem_singleton] at hen <;>
      subst hen <;> simp_all [TagInv]
  | strLit s =>
    intro en hen
    simp [walk] at hen
  | member o p =>
    intro en hen
    simp only [walk, List.mem_append, List.mem_singleton] at hen
    rcases hen with h | h
    · exact walk_inv scope tc o en h
    · subst h; simp [TagInv]
  | index o i =>
    intro en hen
    simp only [walk, List.mem_append] at hen
    rcases hen with h | h
    · exact walk_inv scope tc o en h
    · exact walk_inv scope tc i en h
  | paren e =>
    intro en hen
    simp only [walk] at hen
    exact walk_inv scope tc e en hen
  | asCast e t =>
    intro en hen
    simp only [walk, List.mem_append] at hen
    rcases hen with h | h
    · exact walk_inv scope tc e en h
    · exact walk_inv scope true t en h
  | objLit ps =>
    intro en hen
    simp only [walk] at hen
    exact walkList_inv scope tc ", " ps en hen
  | pair k v =>
    intro en hen
    simp only [walk, List.mem_cons] at hen
    rcases hen with h | h
    · subst h; simp [TagInv]
    · exact walk_inv scope tc v en h
  | shorthand n =>
    intro en hen
    cases htc : tc <;> cases hsc : scope.contains n <;>
      simp only [htc, walk, hsc, Bool.false_eq_true, if_false, if_true,
        List.mem_singleton] at hen <;>
      subst hen <;> simp_all [TagInv]
  | tyRef n targs =>
    intro en hen
    cases targs with
    | nil =>
      simp only [walk, List.mem_singleton] at hen
      subst hen; simp [TagInv]
    | cons a tl =>
      simp only [walk, List.mem_cons] at hen
      rcases hen with h | h
      · subst h; simp [TagInv]
      · exact walkList_inv scope true ", " (.cons a tl) en h
  | typeQuery e =>
    intro en hen
    simp only [walk] at hen
    exact walk_inv scope false e en hen
  | keyof t =>
    intro en hen
    simp only [walk] at hen
    exact walk_inv scope true t en hen
  | tyLit ms semi =>
    intro en hen
    simp only [walk] at hen
    exact walkList_inv scope true "; " ms en hen
  | propSig k t =>
    intro en hen
    simp only [walk, List.mem_cons] at hen
    rcases hen with h | h
    · subst h; simp [TagInv]
    · exact walk_inv scope true t en h
  | methodSig k ps r =>
    intro en hen
    simp only [walk, List.mem_cons, List.mem_append] at hen
    rcases hen with h | h | h
    · subst h; simp [TagInv]
    · exact walkList_inv scope true ", " ps en h
    · exact walk_inv scope true r en h
  | param n t =>
    intro en hen
    simp only [walk, List.mem_cons] at hen
    rcases hen with h | h
    · subst h; simp [TagInv]
    · exact walk_inv scope true t en h
  | computedKey e t =>
    intro en hen
    simp only [walk, List.mem_append] at hen
    rcases hen with h | h
    · exact walk_inv scope false e en h
    · exact walk_inv scope true t en h

/-- Every entry produced by a classifier list walk satisfies the
invariant. -/
theorem walkList_inv (scope : List String) (tc : Bool) (sep : String) (l : NodeList) :
    ∀ en ∈ (walkList scope tc sep l).2, TagInv scope en := by
  cases l with
  | nil => intro en hen; simp [walkList] at hen
  | cons hd tl =>
    cases tl with
    | nil =>
      intro en hen
      simp only [walkList] at hen
      exact walk_inv scope tc hd en hen
    | cons h2 t2 =>
      intro en hen
      simp only [walkList, List.mem_append] at hen
      rcases hen with h | h
      · exact walk_inv scope tc hd en h
      · exact walkList_inv scope tc sep (.cons h2 t2) en h

end

/-! ## Claim theorems -/

/-- C1: no identifier the classifier labels `TypeName` carries the
context-access rewrite; every root `Value` identifier in the BindingSet
carries it (the rewrite is recorded once per entry, at the chain root); and
on `(item as Extract<typeof item, \x7b slot: string; \x7d>)` the emitted
text contains `Extract<` and the unmodified type literal and no prefixed
`slot` followed by `:`, while `(x as \x7b bar(arg: string): void \x7d)`
keeps its type literal unmodified. -/
theorem typeNames_never_prefixed_values_prefixed_at_root :
    (∀ (scope : List String) (tc : Bool) (e : Node),
        ∀ en ∈ (walk scope tc e).2, en.tag = Tag.typeName → en.pref = false)
    ∧ (∀ (scope : List String) (tc : Bool) (e : Node),
        ∀ en ∈ (walk scope tc e).2, en.tag = Tag.value → en.root = true →
          scope.contains en.name = true → en.pref = true)
    ∧ strContains (emitN ["items", "item", "index"] astExtract) "Extract<" = true
    ∧ strContains (emitN ["items", "item", "index"] astExtract)
        "\x7b slot: string; \x7d" = true
    ∧ strContains (emitN ["items", "item", "index"] astExtract)
        (ctxDot ++ "slot:") = false
    ∧ emitN ["x"] astMethodLit = "(__VLS_ctx.x as \x7b bar(arg: string): void \x7d)" := by
  refine ⟨?_, ?_, by decide, by decide, by decide, by decide⟩
  · intro scope tc e en hen htag
    exact (walk_inv scope tc e en hen).1 htag
  · intro scope tc e en hen h1 h2 h3
    exact (walk_inv scope tc e en hen).2.2 h1 h2 h3

/-- Witness for C1 at concrete inputs: the `string` reference inside a type
literal is unprefixed, and in-scope `foo` at a chain root is prefixed. -/
theorem typeNames_never_prefixed_witness :
    (⟨"string", Tag.typeName, true, false⟩ : TagEntry).pref = false
    ∧ (⟨"foo", Tag.value, true, true⟩ : TagEntry).pref = true := by
  constructor
  · exact typeNames_never_prefixed_values_prefixed_at_root.1 [] true
      (.tyRef "string" .nil) ⟨"string", Tag.typeName, true, false⟩ (by decide) (by decide)
  · exact typeNames_never_prefixed_values_prefixed_at_root.2.1 ["foo"] false
      (.ident "foo") ⟨"foo", Tag.value, true, true⟩ (by decide) (by decide) (by decide)
      (by decide)

/-- C2 counterexample: for `foo as typeof bar` with `bar` in the BindingSet,
the classifier labels `bar` a `Value` and emits it with the context-access
rewrite — the repo's own `ts type query` test expects exactly
`as typeof __VLS_ctx.bar` — so the name after `typeof` is neither
classified `TypeName` nor emitted unchanged. -/
theorem typeQuery_operand_is_prefixed_cex :
    emitN ["foo", "bar"] astTypeQueryCast = "__VLS_ctx.foo as typeof __VLS_ctx.bar"
    ∧ strContains (emitN ["foo", "bar"] astTypeQueryCast) "typeof __VLS_ctx.bar" = true
    ∧ (⟨"bar", Tag.value, true, true⟩ : TagEntry) ∈ tagsN ["foo", "bar"] astTypeQueryCast
    ∧ (⟨"bar", Tag.typeName, true, false⟩ : TagEntry) ∉ tagsN ["foo", "bar"] astTypeQueryCast := by
  refine ⟨by decide, by decide, by decide, by decide⟩

/-- C2 amended: the operand of a type query is walked in expression context;
the name following `typeof` is classified `Value` and receives the
context-access rewrite exactly when it is in the BindingSet. -/
theorem typeQuery_operand_value_context (scope : List String) (tc : Bool) (n : String) :
    (walk scope tc (.typeQuery (.ident n))).1
      = "typeof " ++ (if scope.contains n then ctxDot ++ n else n)
    ∧ (walk scope tc (.typeQuery (.ident n))).2
      = [⟨n, Tag.value, true, scope.contains n⟩] := by
  cases hsc : scope.contains n <;> simp_all [walk]

/-- C5: `foo.bar[baz]` with `foo` and `baz` in scope emits
`__VLS_ctx.foo.bar[__VLS_ctx.baz]`; non-root entries are never prefixed,
and the non-root segment `bar` is recorded unprefixed. -/
theorem member_root_only_prefixed :
    emitN ["foo", "baz"] astMemberIndex = "__VLS_ctx.foo.bar[__VLS_ctx.baz]"
    ∧ (∀ (scope : List String) (tc : Bool) (e : Node),
        ∀ en ∈ (walk scope tc e).2, en.root = false → en.pref = false)
    ∧ (⟨"bar", Tag.value, false, false⟩ : TagEntry) ∈ tagsN ["foo", "baz"] astMemberIndex
    ∧ (⟨"baz", Tag.value, true, true⟩ : TagEntry) ∈ tagsN ["foo", "baz"] astMemberIndex := by
  refine ⟨by decide, ?_, by decide, by decide⟩
  intro scope tc e en hen h
  exact (walk_inv scope tc e en hen).2.1 h

/-- Witness for C5 at a concrete input: the non-root segment `bar` of
`foo.bar[baz]` is unprefixed. -/
theorem member_root_only_prefixed_witness :
    (⟨"bar", Tag.value, false, false⟩ : TagEntry).pref = false :=
  member_root_only_prefixed.2.1 ["foo", "baz"] false astMemberIndex
    ⟨"bar", Tag.value, false, false⟩ (by decide) (by decide)

/-- C6: `\x7b foo: bar, baz \x7d` with `bar` and `baz` in scope emits
`\x7b foo: __VLS_ctx.bar, baz: __VLS_ctx.baz \x7d`; an explicit pair keeps
its key untouched and only rewrites the value, and a shorthand property in
scope synthesizes the key and prefixes the value. -/
theorem objectLiteral_shorthand_rule :
    emitN ["bar", "baz"] astObjShorthand
      = "\x7b foo: __VLS_ctx.bar, baz: __VLS_ctx.baz \x7d"
    ∧ (∀ (scope : List String) (k : String) (v : Node),
        (walk scope false (.pair k v)).1 = k ++ ": " ++ (walk scope false v).1)
    ∧ (∀ (scope : List String) (k : String) (v : Node),
        (⟨k, Tag.value, false, false⟩ : TagEntry) ∈ (walk scope false (.pair k v)).2)
    ∧ (∀ (scope : List String) (n : String), scope.contains n = true →
        (walk scope false (.shorthand n)).1 = n ++ ": " ++ ctxDot ++ n) := by
  refine ⟨by decide, ?_, ?_, ?_⟩
  · intro scope k v; simp [walk]
  · intro scope k v; simp [walk]
  · intro scope n hsc; simp_all [walk]

/-- Witness for C6 at a concrete input: the in-scope shorthand `baz` emits
a synthesized key and a prefixed value. -/
theorem objectLiteral_shorthand_rule_witness :
    (walk ["baz"] false (.shorthand "baz")).1 = "baz: " ++ ctxDot ++ "baz" :=
  objectLiteral_shorthand_rule.2.2.2 ["baz"] "baz" (by decide)

/-- C3 counterexample: `foo`, declared and accessed by the template but
neither a dollar variable nor a component tag, is exposed by `generate`,
yet it is not in the intersection of the three sets the claim names. -/
theorem exposed_not_intersection_cex :
    "foo" ∈ setupExposed ["foo"] ["foo"] [] []
    ∧ claimedExposedCond ["foo"] [] [] "foo" = false := by
  exact ⟨by decide, by decide⟩

/-- Membership in the spellings tried for one component tag. -/
theorem mem_tagSpellings (c n : String) :
    n ∈ tagSpellings c ↔ n = camelizeStr c ∨ n = capitalizeStr (camelizeStr c) := by
  unfold tagSpellings
  split
  next h =>
    rw [beq_iff_eq] at h
    rw [← h]
    simp
  next h => simp

/-- C3 amended: a declared binding is re-exposed iff it is declared and in
the union of the three sets — template-accessed names, dollar variables,
and component tag names in camelized or capitalized-camelized spelling. -/
theorem exposed_iff_declared_and_in_union
    (declared accessed dollar comps : List String) (n : String) :
    n ∈ setupExposed declared accessed dollar comps ↔
      declared.contains n = true ∧
        (n ∈ accessed ∨ n ∈ dollar ∨ ∃ c ∈ comps,
          n = camelizeStr c ∨ n = capitalizeStr (camelizeStr c)) := by
  simp only [setupExposed, List.mem_append, List.mem_filter, List.mem_flatMap,
    mem_tagSpellings]
  aesop

/-- C4 counterexample: two `@plugins` directive lines with array values
leave the per-file option object holding only the second array — duplicate
array-valued keys are replaced, not additively merged. -/
theorem directive_array_values_not_merged_cex :
    (parseLocalCompilerOptions jpTest ["@plugins [\"./a\"]", "@plugins [\"./b\"]"]).map
        (fun es => objGet es "plugins")
      = some (some (JVal.jarr ["./b"]))
    ∧ JVal.jarr ["./b"] ≠ JVal.jarr ["./a", "./b"] := by
  exact ⟨by decide, by decide⟩

/-- C4 amended: `Object.fromEntries` keeps the last directive line's value
for every key, scalar or array/object alike: with two well-formed lines for
key `k` and no later line for `k`, the per-file object maps `k` to the
second line's value. -/
theorem directive_last_writer_wins {J : Type} (jp : String → Option J)
    (pre post : List String) (t₁ t₂ k : String) (j₁ j₂ : J)
    (h₁ : entryOf jp t₁ = some (k, j₁)) (h₂ : entryOf jp t₂ = some (k, j₂))
    (hpost : ∀ t ∈ post, ∀ j : J, entryOf jp t ≠ some (k, j)) :
    ∃ es, parseLocalCompilerOptions jp (pre ++ t₁ :: t₂ :: post) = some es
      ∧ objGet es k = some j₂ := by
  have hsplit : List.filterMap (entryOf jp) (pre ++ t₁ :: t₂ :: post)
      = List.filterMap (entryOf jp) pre ++ (k, j₁) :: (k, j₂) ::
          List.filterMap (entryOf jp) post := by
    simp [List.filterMap_append, List.filterMap_cons, h₁, h₂]
  have hne : (List.filterMap (entryOf jp) (pre ++ t₁ :: t₂ :: post)).isEmpty = false := by
    rw [hsplit]
    simp [List.isEmpty_iff]
  refine ⟨List.filterMap (entryOf jp) (pre ++ t₁ :: t₂ :: post), ?_, ?_⟩
  · simp only [parseLocalCompilerOptions, hne, Bool.false_eq_true, if_false]
  · have hpostnone :
        (List.filterMap (entryOf jp) post).reverse.find? (fun p => p.1 == k) = none := by
      rw [List.find?_eq_none]
      intro p hp hbeq
      rcases List.mem_filterMap.1 (List.mem_reverse.1 hp) with ⟨t, ht, he⟩
      apply hpost t ht p.2
      have hk : p.1 = k := by simpa using hbeq
      calc entryOf jp t = some p := he
        _ = some (k, p.2) := by rw [← hk]
    rw [objGet, hsplit]
    simp [List.find?_append, hpostnone]

/-- Witness for C4 amended at the concrete duplicate `@plugins` lines. -/
theorem directive_last_writer_wins_witness :
    ∃ es, parseLocalCompilerOptions jpTest ["@plugins [\"./a\"]", "@plugins [\"./b\"]"]
        = some es
      ∧ objGet es "plugins" = some (JVal.jarr ["./b"]) :=
  directive_last_writer_wins jpTest [] [] "@plugins [\"./a\"]" "@plugins [\"./b\"]"
    "plugins" (JVal.jarr ["./a"]) (JVal.jarr ["./b"])
    (by decide) (by decide) (by simp)

/-- C9: a comment line that fails the directive shape or the JSON parse is
skipped without affecting the others; every well-formed line contributes
its entry; and when no line yields an entry the parser returns none. -/
theorem malformed_directive_skipped :
    (∀ {J : Type} (jp : String → Option J) (pre post : List String) (bad : String),
        entryOf jp bad = none →
        parseLocalCompilerOptions jp (pre ++ bad :: post)
          = parseLocalCompilerOptions jp (pre ++ post))
    ∧ (∀ {J : Type} (jp : String → Option J) (comments : List String)
        (t k : String) (j : J), t ∈ comments → entryOf jp t = some (k, j) →
        ∃ es, parseLocalCompilerOptions jp comments = some es ∧ (k, j) ∈ es)
    ∧ (∀ {J : Type} (jp : String → Option J) (comments : List String),
        (∀ t ∈ comments, entryOf jp t = none) →
        parseLocalCompilerOptions jp comments = none) := by
  refine ⟨?_, ?_, ?_⟩
  · intro J jp pre post bad hbad
    have hfm : List.filterMap (entryOf jp) (pre ++ bad :: post)
        = List.filterMap (entryOf jp) (pre ++ post) := by
      simp [List.filterMap_append, List.filterMap_cons, hbad]
    unfold parseLocalCompilerOptions
    rw [hfm]
  · intro J jp comments t k j ht he
    have hmem : (k, j) ∈ comments.filterMap (entryOf jp) :=
      List.mem_filterMap.2 ⟨t, ht, he⟩
    have hne : (comments.filterMap (entryOf jp)).isEmpty = false := by
      cases hcf : comments.filterMap (entryOf jp) with
      | nil => rw [hcf] at hmem; cases hmem
      | cons a l => rfl
    exact ⟨comments.filterMap (entryOf jp),
      by simp only [parseLocalCompilerOptions, hne, Bool.false_eq_true, if_false], hmem⟩
  · intro J jp comments hall
    have hnil : comments.filterMap (entryOf jp) = [] :=
      List.filterMap_eq_nil_iff.2 hall
    simp [parseLocalCompilerOptions, hnil]

/-- Witness for C9 at concrete comment lists: the malformed line `nope` is
skipped, the well-formed `@target 3` still contributes, and a list with no
well-formed line yields none. -/
theorem malformed_directive_skipped_witness :
    parseLocalCompilerOptions jpTest ["nope", "@target 3"]
      = parseLocalCompilerOptions jpTest ["@target 3"]
    ∧ (∃ es, parseLocalCompilerOptions jpTest ["nope", "@target 3"] = some es
        ∧ ("target", JVal.jnum 3) ∈ es)
    ∧ parseLocalCompilerOptions jpTest ["nope"] = none := by
  refine ⟨?_, ?_, ?_⟩
  · exact malformed_directive_skipped.1 jpTest [] ["@target 3"] "nope" (by decide)
  · exact malformed_directive_skipped.2.1 jpTest ["nope", "@target 3"] "@target 3"
      "target" (JVal.jnum 3) (by decide) (by decide)
  · exact malformed_directive_skipped.2.2 jpTest ["nope"] (by decide)

/-- C7: a ref-creating macro call with an explicit type argument is emitted
verbatim with no narrowing cast; without one, the call is wrapped in the
`Readonly<ShallowRef<...>>` cast keyed by the ref's string name, as the
`useTemplateRef('rootRef')` examples show. -/
theorem refCreation_cast_only_without_type_arg :
    (∀ c : RefMacroCall, c.hasTypeArg = true → emitRefCreation c = c.callText)
    ∧ (∀ c : RefMacroCall, c.hasTypeArg = false →
        emitRefCreation c
          = c.callText ++ " as Readonly<ShallowRef<__VLS_TemplateRefs['"
              ++ c.refName ++ "'] | null>>")
    ∧ emitRefCreation ⟨"useTemplateRef<ComponentPublicInstance>('rootRef')", true, "rootRef"⟩
        = "useTemplateRef<ComponentPublicInstance>('rootRef')"
    ∧ strContains
        (emitRefCreation ⟨"useTemplateRef<ComponentPublicInstance>('rootRef')", true, "rootRef"⟩)
        "as Readonly<" = false
    ∧ emitRefCreation ⟨"useTemplateRef('rootRef')", false, "rootRef"⟩
        = "useTemplateRef('rootRef') as Readonly<ShallowRef<__VLS_TemplateRefs['rootRef'] | null>>"
    ∧ strContains (emitRefCreation ⟨"useTemplateRef('rootRef')", false, "rootRef"⟩)
        "ShallowRef<" = true := by
  refine ⟨?_, ?_, by decide, by decide, by decide, by decide⟩
  · intro c h; simp [emitRefCreation, h]
  · intro c h; simp [emitRefCreation, h]

/-- Witness for C7 at the concrete `rootRef` calls. -/
theorem refCreation_cast_only_without_type_arg_witness :
    emitRefCreation ⟨"useTemplateRef<T>('r')", true, "r"⟩ = "useTemplateRef<T>('r')"
    ∧ emitRefCreation ⟨"useTemplateRef('r')", false, "r"⟩
        = "useTemplateRef('r') as Readonly<ShallowRef<__VLS_TemplateRefs['r'] | null>>" :=
  ⟨refCreation_cast_only_without_type_arg.1 ⟨"useTemplateRef<T>('r')", true, "r"⟩ rfl,
    refCreation_cast_only_without_type_arg.2.1 ⟨"useTemplateRef('r')", false, "r"⟩ rfl⟩

/-- C8: the scanner returns the specifier of plain imports, named/default
re-exports, `export * from`, and `export * as ns from` forms; on the
three-line example the result includes `./components`, `./prose` and
`./foo`, and every line whose form yields a specifier contributes it. -/
theorem scanner_reports_reexport_specifiers :
    scanImports "export * from './components'\nexport * as prose from './prose'\nimport \x7b foo \x7d from './foo'"
      = ["./components", "./prose", "./foo"]
    ∧ extractModuleSpec "export * from './components'" = some "./components"
    ∧ extractModuleSpec "export * as prose from './prose'" = some "./prose"
    ∧ extractModuleSpec "import \x7b foo \x7d from './foo'" = some "./foo"
    ∧ extractModuleSpec "export \x7b default \x7d from './utils'" = some "./utils"
    ∧ (∀ (ls : List String) (l m : String), l ∈ ls → extractModuleSpec l = some m →
        m ∈ ls.filterMap extractModuleSpec) := by
  refine ⟨by decide, by decide, by decide, by decide, by decide, ?_⟩
  intro ls l m hl hm
  exact List.mem_filterMap.2 ⟨l, hl, hm⟩

/-- Witness for C8 at a concrete line list: the namespace star re-export
contributes `./prose`. -/
theorem scanner_reports_reexport_specifiers_witness :
    "./prose" ∈ ["export * as prose from './prose'"].filterMap extractModuleSpec :=
  scanner_reports_reexport_specifiers.2.2.2.2.2 ["export * as prose from './prose'"]
    "export * as prose from './prose'" "./prose" (by decide) (by decide)

/-- C10: the attribute value offset is the node's start offset plus one
when the node's source starts with a double or single quote, and exactly
the start offset otherwise. -/
theorem attributeValueOffset_quote_rule (node : TextNode) :
    (startsWithQuote node.source = true →
        getAttributeValueOffset node = node.startOffset + 1)
    ∧ (startsWithQuote node.source = false →
        getAttributeValueOffset node = node.startOffset) := by
  constructor <;> intro h <;> simp [getAttributeValueOffset, h]

/-- Witness for C10 at concrete nodes: a quoted source shifts by one, an
unquoted source does not. -/
theorem attributeValueOffset_quote_rule_witness :
    getAttributeValueOffset ⟨5, "'x'"⟩ = 6 ∧ getAttributeValueOffset ⟨7, "x"⟩ = 7 :=
  ⟨(attributeValueOffset_quote_rule ⟨5, "'x'"⟩).1 (by decide),
    (attributeValueOffset_quote_rule ⟨7, "x"⟩).2 (by decide)⟩

end VueTsgo
